import Mathlib

/-!
# Course-analysis dashboard: verified model of the core pipeline

A shallow embedding of the data-loading, filtering and aggregation logic of
the course-catalog dashboard (`app.py` / `appv3.py`).  Text values are
modelled as `List Char`; a nullable spreadsheet cell is an `Option`.
The embedding follows `appv3.py` (whose filter pipeline is a superset of
`app.py`: it adds the department step; all shared steps are identical in
the two variants).
-/

/-- Text values (Python strings / pandas object cells) as lists of
characters. -/
abbrev Str := List Char

/-- One row of the unified course table.  `year`/`term` are always
assigned by the loader (never null); `college`, `department` and
`courseName` are nullable spreadsheet cells; `tags` is the raw
`課程標籤` field after `fillna('')` (so a missing cell is `[]`). -/
structure CourseRecord where
  year : Str
  term : Str
  college : Option Str
  department : Option Str
  courseCode : Str
  courseName : Option Str
  tags : Str
  deriving DecidableEq, Repr

/-! ## Catalog Loader (`load_and_combine_data`, lines 12–48 of appv3.py) -/

/-- `re.search(r'(\d{3})-(\d)', f)`: scan positions left to right; at the
first position where three digits, a literal `'-'` and one digit follow,
return the two capture groups. -/
def extractYT : Str → Option (Str × Str)
  | a :: b :: c :: d :: e :: rest =>
    if a.isDigit && b.isDigit && c.isDigit && (d == '-') && e.isDigit then
      some ([a, b, c], [e])
    else
      extractYT (b :: c :: d :: e :: rest)
  | _ => none

/-- `f.endswith('.xlsx')` (line 15). -/
def endsWithXlsx (f : Str) : Bool := (".xlsx".toList).isSuffixOf f

/-- Lines 28–29: `temp_df['學年度'] = year; temp_df['學期'] = term` —
the year/term columns are overwritten unconditionally on every row. -/
def tagRow (yt : Str × Str) (r : CourseRecord) : CourseRecord :=
  { r with year := yt.1, term := yt.2 }

/-- The per-file loop body (lines 20–32): for each file whose name
matches the year-term pattern, attempt to parse it (`parse f = none`
models a `pd.read_excel` exception); on success collect the tagged
row set, on failure record the file name as a warning. -/
def processFiles (parse : Str → Option (List CourseRecord)) :
    List Str → List (List CourseRecord) × List Str
  | [] => ([], [])
  | f :: fs =>
    let rest := processFiles parse fs
    match extractYT f with
    | none => rest
    | some yt =>
      match parse f with
      | none => (rest.1, f :: rest.2)
      | some rows => (rows.map (tagRow yt) :: rest.1, rest.2)

/-- `load_and_combine_data` (lines 12–37 of appv3.py), restricted to the
row table: filter directory entries to `.xlsx` names, ingest each
matching file, and concatenate.  `none` models the explicit no-data
return (`return None, ...`); the second component is the list of files
for which a read-failure warning was shown. -/
def load_and_combine_data (files : List Str)
    (parse : Str → Option (List CourseRecord)) :
    Option (List CourseRecord) × List Str :=
  let xs := files.filter endsWithXlsx
  if xs.isEmpty then (none, [])
  else
    let pr := processFiles parse xs
    if pr.1.isEmpty then (none, pr.2) else (some pr.1.flatten, pr.2)

/-- The rows of a load result (empty on the no-data result). -/
def catalogRows (res : Option (List CourseRecord) × List Str) :
    List CourseRecord :=
  res.1.getD []

/-- The net contribution of a single directory entry to the unified
table: its tagged rows when the name ends in `.xlsx`, matches the
year-term pattern and parses; nothing otherwise. -/
def ingestFile (parse : Str → Option (List CourseRecord)) (f : Str) :
    List CourseRecord :=
  if endsWithXlsx f then
    match extractYT f with
    | some yt =>
      match parse f with
      | some rows => rows.map (tagRow yt)
      | none => []
    | none => []
  else []

/-- Declarative reading of the spec's file-name convention: the name
contains a substring of three digits, a literal `'-'`, and one digit. -/
def containsYTPattern (f : Str) : Prop :=
  ∃ (pre post : Str) (a b c e : Char),
    a.isDigit ∧ b.isDigit ∧ c.isDigit ∧ e.isDigit ∧
    f = pre ++ [a, b, c, '-', e] ++ post

/-! ## Tag normalization (lines 40–42 of appv3.py) -/

/-- Python `str.strip()` on a tag part (to ASCII whitespace). -/
def trimStr (s : Str) : Str :=
  ((s.dropWhile Char.isWhitespace).reverse.dropWhile Char.isWhitespace).reverse

/-- The normalized tag set of a raw `課程標籤` cell: split on newline,
trim each part, discard empty parts (lines 41–42). -/
def normTags (raw : Str) : List Str :=
  ((raw.splitOn '\n').map trimStr).filter (fun t => ¬ t.isEmpty)

/-! ## Filter Engine (lines 82–93 of appv3.py) -/

/-- The user's current selections.  Multi-selects are lists (empty =
nothing selected); the keyword is a string (empty = no keyword). -/
structure FilterCriteria where
  years : List Str
  terms : List Str
  colleges : List Str
  departments : List Str
  tags : List Str
  keyword : Str
  deriving Repr

/-- Membership test for a nullable cell against a selection, as pandas
`Series.isin`: a null cell is never in the selection. -/
def cellIn (sel : List Str) (cell : Option Str) : Bool :=
  match cell with
  | some x => sel.contains x
  | none => false

/-- Line 90: `any(tag in x for tag in selected_tags)` — Python `in` on
strings is substring containment, applied to the raw tag cell. -/
def tagKeep (sel : List Str) (r : CourseRecord) : Bool :=
  sel.any (fun t => decide (t <:+: r.tags))

/-! ### Keyword matching (line 93)

`Series.str.contains(search_keyword, na=False, case=False)` interprets
the keyword as a regular expression (pandas default `regex=True`) and
searches it anywhere in the course name, case-insensitively; a null
name yields `False` (`na=False`).  The regex fragment modelled here
covers patterns built from non-metacharacter literals and `'.'`; the
model is faithful to Python `re` exactly on that fragment. -/

/-- A compiled pattern token: a literal character (stored lowercased)
or the metacharacter `'.'`. -/
inductive Tok where
  | lit : Char → Tok
  | dot : Tok
  deriving DecidableEq, Repr

/-- Python regex metacharacters; a keyword avoiding them is matched
purely literally. -/
def isRegexMeta (c : Char) : Bool :=
  c == '.' || c == '^' || c == '$' || c == '*' || c == '+' || c == '?' ||
  c == '\x7b' || c == '\x7d' || c == '[' || c == ']' || c == '\\' ||
  c == '|' || c == '(' || c == ')'

/-- Compile a keyword: `'.'` becomes the any-character token, all other
characters literal tokens (lowercased under `re.IGNORECASE`). -/
def compilePat (kw : Str) : List Tok :=
  kw.map (fun c => if c == '.' then Tok.dot else Tok.lit c.toLower)

/-- One token against one subject character (subject lowercased under
`re.IGNORECASE`). -/
def tokMatch : Tok → Char → Bool
  | Tok.lit c, d => c == d.toLower
  | Tok.dot, _ => true

/-- Match a whole pattern against the beginning of the subject. -/
def matchPre : List Tok → Str → Bool
  | [], _ => true
  | _ :: _, [] => false
  | t :: ts, c :: cs => tokMatch t c && matchPre ts cs

/-- `re.search`: try the pattern at every start position. -/
def patSearch (p : List Tok) : Str → Bool
  | [] => matchPre p []
  | c :: cs => matchPre p (c :: cs) || patSearch p cs

/-- Lowercase a text value. -/
def lowerL (s : Str) : Str := s.map Char.toLower

/-- The row predicate of line 93: null names never match (`na=False`),
otherwise the keyword regex is searched in the name. -/
def keywordKeep (kw : Str) (r : CourseRecord) : Bool :=
  match r.courseName with
  | none => false
  | some n => patSearch (compilePat kw) n

/-- An optional filter step: applied only when the controlling
selection is non-empty (the `if selected_...:` guards of lines 85–92). -/
def gate (sel : List α) (p : CourseRecord → Bool)
    (rows : List CourseRecord) : List CourseRecord :=
  if sel.isEmpty then rows else rows.filter p

/-- Line 83: the unconditional year/term step —
`(f_df['學年度'].isin(selected_years)) & (f_df['學期'].isin(selected_terms))`. -/
def stepYearTerm (years terms : List Str) (rows : List CourseRecord) :
    List CourseRecord :=
  rows.filter (fun r => years.contains r.year && terms.contains r.term)

/-- The whole filter pipeline of lines 82–93, in source order:
year/term, college, department, tags, keyword. -/
def applyFilters (rows : List CourseRecord) (c : FilterCriteria) :
    List CourseRecord :=
  gate c.keyword (keywordKeep c.keyword)
    (gate c.tags (tagKeep c.tags)
      (gate c.departments (fun r => cellIn c.departments r.department)
        (gate c.colleges (fun r => cellIn c.colleges r.college)
          (stepYearTerm c.years c.terms rows))))

/-! ## Aggregation Engine (lines 96–133 of appv3.py) -/

/-- The natural key of line 96:
`drop_duplicates(subset=['學年度', '學期', '主開課程碼'])`. -/
def natKey (r : CourseRecord) : Str × Str × Str :=
  (r.year, r.term, r.courseCode)

/-- `drop_duplicates(keep='first')` over the natural key: keep a row
iff its key was not seen earlier. -/
def dedupeAux (seen : List (Str × Str × Str)) :
    List CourseRecord → List CourseRecord
  | [] => []
  | r :: rs =>
    if natKey r ∈ seen then dedupeAux seen rs
    else r :: dedupeAux (natKey r :: seen) rs

/-- Deduplication on `(year, term, courseCode)` (line 96). -/
def dedupe (rows : List CourseRecord) : List CourseRecord :=
  dedupeAux [] rows

/-- `groupby(key).size()`: one `(group value, member count)` pair per
distinct non-null key value.  pandas drops rows whose grouping value is
null (`dropna=True`); group order is not modelled (no claim depends on
it). -/
def countBy (key : CourseRecord → Option K) [DecidableEq K]
    (rows : List CourseRecord) : List (K × Nat) :=
  (rows.filterMap key).dedup.map (fun k => (k, (rows.filterMap key).count k))

/-- The year×term trend dimension (line 108); the loader always assigns
both columns, so the key is total. -/
def ytKey (r : CourseRecord) : Option (Str × Str) := some (r.year, r.term)

/-- The college dimension (line 117); null colleges fall out. -/
def collegeKey (r : CourseRecord) : Option Str := r.college

/-- The department dimension (line 132); null departments fall out. -/
def deptKey (r : CourseRecord) : Option Str := r.department

/-- Descending order on group counts
(`sort_values('課程數', ascending=False)`). -/
def cntGE (a b : Str × Nat) : Prop := b.2 ≤ a.2

instance : DecidableRel cntGE := fun a b => Nat.decLe b.2 a.2

instance : IsTotal (Str × Nat) cntGE := ⟨fun a b => Nat.le_total b.2 a.2⟩

instance : IsTrans (Str × Nat) cntGE :=
  ⟨fun _ _ _ hab hbc => Nat.le_trans hbc hab⟩

/-- Sort group rows descending by count (line 133; modelled with a
stable sort). -/
def sortDescByCount (l : List (Str × Nat)) : List (Str × Nat) :=
  l.insertionSort cntGE

/-- Lines 132–133: group the deduped rows by department, sort
descending by count, truncate to the first `n` groups (`.head(15)`). -/
def topDepts (n : Nat) (rows : List CourseRecord) : List (Str × Nat) :=
  (sortDescByCount (countBy deptKey rows)).take n

/-! ## Concrete sample data used by witnesses and counterexamples -/

/-- A representative catalog row. -/
def baseRec : CourseRecord :=
  { year := "114".toList, term := "1".toList,
    college := some ("ENG".toList), department := some ("CS".toList),
    courseCode := "C1".toList,
    courseName := some ("Programming I".toList),
    tags := "A\nB".toList }

/-- A row whose raw tag cell is the single tag `"AB"`. -/
def recRawAB : CourseRecord := { baseRec with tags := "AB".toList }

/-- A row with a null college cell. -/
def recNullCollege : CourseRecord := { baseRec with college := none }

/-- A row whose course name is `"AB"`. -/
def recNameAB : CourseRecord := { baseRec with courseName := some ("AB".toList) }

/-- A raw parsed row carrying a bogus year column, used to show the
loader overwrites it. -/
def recYear999 : CourseRecord := { baseRec with year := "999".toList }

/-- A criteria value with everything selected except years. -/
def critNoYears : FilterCriteria :=
  { years := [], terms := ["1".toList, "2".toList],
    colleges := [], departments := [], tags := [], keyword := [] }

/-- A fully-loaded criteria value used to exercise relaxation. -/
def critFull : FilterCriteria :=
  { years := ["114".toList], terms := ["1".toList],
    colleges := ["ENG".toList], departments := ["CS".toList],
    tags := ["A".toList], keyword := "program".toList }

/-! ## Basic facts about the optional filter steps -/

theorem gate_sublist (sel : List α) (p : CourseRecord → Bool)
    (rows : List CourseRecord) : List.Sublist (gate sel p rows) rows := by
  unfold gate
  split
  · exact List.Sublist.refl _
  · exact List.filter_sublist _

theorem gate_mono (sel : List α) (p : CourseRecord → Bool)
    {l l' : List CourseRecord} (h : List.Sublist l l') :
    List.Sublist (gate sel p l) (gate sel p l') := by
  unfold gate
  split
  · exact h
  · exact h.filter p

theorem gate_nil (sel : List α) (p : CourseRecord → Bool) :
    gate sel p [] = [] := by
  unfold gate
  split <;> simp

/-- C5: with an empty year selection or an empty term selection, the
pipeline returns no rows (`isin` against an empty selection is
everywhere false, and every later step filters the empty list). -/
theorem applyFilters_empty_year_or_term (rows : List CourseRecord)
    (c : FilterCriteria) (h : c.years = [] ∨ c.terms = []) :
    applyFilters rows c = [] := by
  have hyt : stepYearTerm c.years c.terms rows = [] := by
    apply List.filter_eq_nil_iff.mpr
    intro r _
    rcases h with h | h <;> simp [h]
  simp only [applyFilters, hyt, gate_nil]

theorem applyFilters_empty_year_or_term_witness :
    applyFilters [baseRec] critNoYears = [] :=
  applyFilters_empty_year_or_term [baseRec] critNoYears (Or.inl rfl)

/-- C6: clearing any one of the keyword, college, department or tag
constraints only enlarges the result: the stricter result is a
subsequence (hence no longer) of the relaxed one. -/
theorem applyFilters_relax_monotone (rows : List CourseRecord)
    (c : FilterCriteria) :
    (List.Sublist (applyFilters rows c)
        (applyFilters rows { c with keyword := [] }) ∧
      (applyFilters rows c).length ≤
        (applyFilters rows { c with keyword := [] }).length) ∧
    (List.Sublist (applyFilters rows c)
        (applyFilters rows { c with colleges := [] }) ∧
      (applyFilters rows c).length ≤
        (applyFilters rows { c with colleges := [] }).length) ∧
    (List.Sublist (applyFilters rows c)
        (applyFilters rows { c with departments := [] }) ∧
      (applyFilters rows c).length ≤
        (applyFilters rows { c with departments := [] }).length) ∧
    (List.Sublist (applyFilters rows c)
        (applyFilters rows { c with tags := [] }) ∧
      (applyFilters rows c).length ≤
        (applyFilters rows { c with tags := [] }).length) := by
  have hkw : List.Sublist (applyFilters rows c)
      (applyFilters rows { c with keyword := [] }) :=
    gate_sublist _ _ _
  have hcol : List.Sublist (applyFilters rows c)
      (applyFilters rows { c with colleges := [] }) :=
    gate_mono _ _ (gate_mono _ _ (gate_mono _ _ (gate_sublist _ _ _)))
  have hdep : List.Sublist (applyFilters rows c)
      (applyFilters rows { c with departments := [] }) :=
    gate_mono _ _ (gate_mono _ _ (gate_sublist _ _ _))
  have htag : List.Sublist (applyFilters rows c)
      (applyFilters rows { c with tags := [] }) :=
    gate_mono _ _ (gate_sublist _ _ _)
  exact ⟨⟨hkw, hkw.length_le⟩, ⟨hcol, hcol.length_le⟩,
    ⟨hdep, hdep.length_le⟩, ⟨htag, htag.length_le⟩⟩

theorem applyFilters_relax_monotone_witness :
    List.Sublist (applyFilters [baseRec] critFull)
      (applyFilters [baseRec] { critFull with keyword := [] }) :=
  (applyFilters_relax_monotone [baseRec] critFull).1.1

/-! ## Deduplication facts -/

theorem dedupeAux_sublist (seen : List (Str × Str × Str))
    (l : List CourseRecord) : List.Sublist (dedupeAux seen l) l := by
  induction l generalizing seen with
  | nil => exact List.Sublist.refl _
  | cons r rs ih =>
    rw [dedupeAux]
    split
    · exact (ih seen).cons r
    · exact (ih (natKey r :: seen)).cons₂ r

theorem dedupeAux_key_notMem_seen {seen : List (Str × Str × Str)}
    {l : List CourseRecord} {r : CourseRecord}
    (h : r ∈ dedupeAux seen l) : natKey r ∉ seen := by
  induction l generalizing seen with
  | nil => simp [dedupeAux] at h
  | cons x xs ih =>
    rw [dedupeAux] at h
    split at h
    · exact ih h
    · next hc =>
        rcases List.mem_cons.mp h with h1 | h2
        · subst h1; exact hc
        · have hrec := ih h2
          intro hmem
          exact hrec (List.mem_cons_of_mem _ hmem)

theorem dedupeAux_pairwise (seen : List (Str × Str × Str))
    (l : List CourseRecord) :
    (dedupeAux seen l).Pairwise (fun a b => natKey a ≠ natKey b) := by
  induction l generalizing seen with
  | nil => simp [dedupeAux]
  | cons r rs ih =>
    rw [dedupeAux]
    split
    · exact ih seen
    · refine List.Pairwise.cons ?_ (ih (natKey r :: seen))
      intro b hb he
      exact dedupeAux_key_notMem_seen hb (he ▸ List.mem_cons_self _ _)

theorem dedupeAux_find? {seen : List (Str × Str × Str)}
    {l : List CourseRecord} {r : CourseRecord}
    (h : r ∈ dedupeAux seen l) :
    l.find? (fun s => natKey s == natKey r) = some r := by
  induction l generalizing seen with
  | nil => simp [dedupeAux] at h
  | cons x xs ih =>
    rw [dedupeAux] at h
    split at h
    · next hc =>
        have hne : (natKey x == natKey r) = false := by
          refine beq_eq_false_iff_ne.mpr ?_
          intro he
          exact dedupeAux_key_notMem_seen h (he ▸ hc)
        simp [List.find?_cons, hne]
        exact ih h
    · next hc =>
        rcases List.mem_cons.mp h with h1 | h2
        · subst h1
          simp [List.find?_cons]
        · have hne : (natKey x == natKey r) = false := by
            refine beq_eq_false_iff_ne.mpr ?_
            intro he
            exact dedupeAux_key_notMem_seen h2
              (he ▸ List.mem_cons_self _ _)
          simp [List.find?_cons, hne]
          exact ih h2

theorem dedupeAux_complete {seen : List (Str × Str × Str)}
    {l : List CourseRecord} {r : CourseRecord}
    (hr : r ∈ l) (hs : natKey r ∉ seen) :
    ∃ s ∈ dedupeAux seen l, natKey s = natKey r := by
  induction l generalizing seen with
  | nil => cases hr
  | cons x xs ih =>
    rw [dedupeAux]
    split
    · next hc =>
        rcases List.mem_cons.mp hr with h1 | h2
        · subst h1; exact absurd hc hs
        · exact ih h2 hs
    · next hc =>
        rcases List.mem_cons.mp hr with h1 | h2
        · exact ⟨x, List.mem_cons_self _ _, by rw [h1]⟩
        · by_cases he : natKey x = natKey r
          · exact ⟨x, List.mem_cons_self _ _, he⟩
          · have hs' : natKey r ∉ natKey x :: seen := by
              intro hm
              rcases List.mem_cons.mp hm with hm1 | hm2
              · exact he hm1.symm
              · exact hs hm2
            obtain ⟨s, hsmem, hkey⟩ := ih h2 hs'
            exact ⟨s, List.mem_cons_of_mem _ hsmem, hkey⟩

/-- C7: `dedupe` returns a subsequence of its input (order preserved),
its output has pairwise distinct `(year, term, courseCode)` keys, every
retained row is the first occurrence of its key in the input, and every
key of the input is represented in the output. -/
theorem dedupe_first_occurrence_per_key (l : List CourseRecord) :
    List.Sublist (dedupe l) l ∧
    (dedupe l).Pairwise (fun a b => natKey a ≠ natKey b) ∧
    (∀ r ∈ dedupe l, l.find? (fun s => natKey s == natKey r) = some r) ∧
    (∀ r ∈ l, ∃ s ∈ dedupe l, natKey s = natKey r) :=
  ⟨dedupeAux_sublist [] l, dedupeAux_pairwise [] l,
    fun _ h => dedupeAux_find? h,
    fun _ h => dedupeAux_complete h (by simp)⟩

theorem dedupe_first_occurrence_per_key_witness :
    List.Sublist (dedupe [baseRec, recNameAB, recNullCollege])
      [baseRec, recNameAB, recNullCollege] :=
  (dedupe_first_occurrence_per_key [baseRec, recNameAB, recNullCollege]).1

/-! ## Loader facts -/

theorem processFiles_flatten (parse : Str → Option (List CourseRecord))
    (xs : List Str) (hx : ∀ f ∈ xs, endsWithXlsx f = true) :
    ((processFiles parse xs).1).flatten = xs.flatMap (ingestFile parse) := by
  induction xs with
  | nil => rfl
  | cons f fs ih =>
    have hf : endsWithXlsx f = true := hx f (List.mem_cons_self _ _)
    have ih' := ih (fun g hg => hx g (List.mem_cons_of_mem _ hg))
    rw [processFiles]
    cases hext : extractYT f with
    | none =>
      simp only [hext]
      rw [List.flatMap_cons, ih']
      simp [ingestFile, hf, hext]
    | some yt =>
      cases hp : parse f with
      | none =>
        simp only [hext, hp]
        rw [List.flatMap_cons, ih']
        simp [ingestFile, hf, hext, hp]
      | some rows =>
        simp only [hext, hp]
        rw [List.flatMap_cons]
        simp only [List.flatten_cons, ih']
        simp [ingestFile, hf, hext, hp]

theorem flatMap_ingest_filter_xlsx (parse : Str → Option (List CourseRecord))
    (files : List Str) :
    files.flatMap (ingestFile parse) =
      (files.filter endsWithXlsx).flatMap (ingestFile parse) := by
  induction files with
  | nil => rfl
  | cons f fs ih =>
    cases hf : endsWithXlsx f with
    | true => simp [List.filter_cons, hf, List.flatMap_cons, ih]
    | false =>
      simp [List.filter_cons, hf, List.flatMap_cons, ih, ingestFile]

theorem processFiles_dfs_nil (parse : Str → Option (List CourseRecord))
    (xs : List Str)
    (h : ∀ f ∈ xs, (extractYT f).isSome = true → parse f = none) :
    (processFiles parse xs).1 = [] := by
  induction xs with
  | nil => rfl
  | cons f fs ih =>
    have ih' := ih (fun g hg => h g (List.mem_cons_of_mem _ hg))
    rw [processFiles]
    cases hext : extractYT f with
    | none => simpa [hext] using ih'
    | some yt =>
      have hp : parse f = none :=
        h f (List.mem_cons_self _ _) (by simp [hext])
      simp [hext, hp, ih']

/-- The unified table produced by the loader is exactly the
concatenation, over the directory listing, of each file's ingested
contribution. -/
theorem catalogRows_load (files : List Str)
    (parse : Str → Option (List CourseRecord)) :
    catalogRows (load_and_combine_data files parse) =
      files.flatMap (ingestFile parse) := by
  rw [flatMap_ingest_filter_xlsx]
  unfold load_and_combine_data
  have hx : ∀ f ∈ files.filter endsWithXlsx, endsWithXlsx f = true :=
    fun f hf => (List.mem_filter.mp hf).2
  cases hempty : (files.filter endsWithXlsx).isEmpty with
  | true =>
    have : files.filter endsWithXlsx = [] := List.isEmpty_iff.mp hempty
    simp [hempty, catalogRows, this]
  | false =>
    simp only [hempty, Bool.false_eq_true, if_false]
    cases hdfs : (processFiles parse (files.filter endsWithXlsx)).1.isEmpty with
    | true =>
      have h0 : (processFiles parse (files.filter endsWithXlsx)).1 = [] :=
        List.isEmpty_iff.mp hdfs
      have := processFiles_flatten parse (files.filter endsWithXlsx) hx
      rw [h0] at this
      simp [hdfs, catalogRows, ← this]
    | false =>
      simp only [hdfs, Bool.false_eq_true, if_false]
      simp [catalogRows, processFiles_flatten parse _ hx]

theorem processFiles_warnings (parse : Str → Option (List CourseRecord))
    (xs : List Str) :
    (processFiles parse xs).2 =
      xs.filter (fun f => (extractYT f).isSome && (parse f).isNone) := by
  induction xs with
  | nil => rfl
  | cons f fs ih =>
    rw [processFiles]
    cases hext : extractYT f with
    | none => simp [hext, List.filter_cons, ih]
    | some yt =>
      cases hp : parse f with
      | none => simp [hext, hp, List.filter_cons, ih]
      | some rows => simp [hext, hp, List.filter_cons, ih]

theorem load_warnings (files : List Str)
    (parse : Str → Option (List CourseRecord)) :
    (load_and_combine_data files parse).2 =
      (files.filter endsWithXlsx).filter
        (fun f => (extractYT f).isSome && (parse f).isNone) := by
  unfold load_and_combine_data
  cases hempty : (files.filter endsWithXlsx).isEmpty with
  | true =>
    have : files.filter endsWithXlsx = [] := List.isEmpty_iff.mp hempty
    simp [hempty, this]
  | false =>
    simp only [hempty, Bool.false_eq_true, if_false]
    cases hdfs : (processFiles parse (files.filter endsWithXlsx)).1.isEmpty with
    | true => simp [hdfs, processFiles_warnings]
    | false => simp [hdfs, processFiles_warnings]

theorem load_none_of_all_fail (files : List Str)
    (parse : Str → Option (List CourseRecord))
    (h : ∀ f ∈ files, endsWithXlsx f = true →
      (extractYT f).isSome = true → parse f = none) :
    (load_and_combine_data files parse).1 = none := by
  unfold load_and_combine_data
  cases hempty : (files.filter endsWithXlsx).isEmpty with
  | true => simp [hempty]
  | false =>
    have h0 : (processFiles parse (files.filter endsWithXlsx)).1 = [] := by
      apply processFiles_dfs_nil
      intro f hf
      exact h f (List.mem_filter.mp hf).1 (List.mem_filter.mp hf).2
    simp [hempty, h0]

theorem containsYTPattern_length {f : Str} (h : containsYTPattern f) :
    5 ≤ f.length := by
  obtain ⟨pre, post, a, b, c, e, _, _, _, _, hf⟩ := h
  subst hf
  simp only [List.length_append, List.length_cons, List.length_nil]
  omega

/-- The regex search succeeds exactly on names containing the
`\d{3}-\d` pattern. -/
theorem extractYT_isSome_iff (f : Str) :
    (extractYT f).isSome = true ↔ containsYTPattern f := by
  induction f with
  | nil =>
    refine iff_of_false (by simp [extractYT]) (fun hc => ?_)
    have h5 := containsYTPattern_length hc
    simp at h5
  | cons a t ih =>
    rcases t with _ | ⟨b, t⟩
    · refine iff_of_false (by simp [extractYT]) (fun hc => ?_)
      have h5 := containsYTPattern_length hc
      simp at h5
    rcases t with _ | ⟨c, t⟩
    · refine iff_of_false (by simp [extractYT]) (fun hc => ?_)
      have h5 := containsYTPattern_length hc
      simp at h5
    rcases t with _ | ⟨d, t⟩
    · refine iff_of_false (by simp [extractYT]) (fun hc => ?_)
      have h5 := containsYTPattern_length hc
      simp at h5
    rcases t with _ | ⟨e, rest⟩
    · refine iff_of_false (by simp [extractYT]) (fun hc => ?_)
      have h5 := containsYTPattern_length hc
      simp at h5
    by_cases hg : (a.isDigit && b.isDigit && c.isDigit &&
        (d == '-') && e.isDigit) = true
    · have heq : extractYT (a :: b :: c :: d :: e :: rest) =
          some ([a, b, c], [e]) := by
        rw [extractYT, if_pos hg]
      rw [heq]
      simp only [Option.isSome_some, true_iff]
      simp only [Bool.and_eq_true, beq_iff_eq] at hg
      obtain ⟨⟨⟨⟨ha, hb⟩, hc0⟩, hd⟩, he⟩ := hg
      subst hd
      exact ⟨[], rest, a, b, c, e, ha, hb, hc0, he, rfl⟩
    · have heq : extractYT (a :: b :: c :: d :: e :: rest) =
          extractYT (b :: c :: d :: e :: rest) := by
        rw [extractYT, if_neg hg]
      rw [heq, ih]
      constructor
      · rintro ⟨pre, post, a', b', c', e', h1, h2, h3, h4, hf⟩
        refine ⟨a :: pre, post, a', b', c', e', h1, h2, h3, h4, ?_⟩
        rw [hf]
        rfl
      · rintro ⟨pre, post, a', b', c', e', h1, h2, h3, h4, hf⟩
        cases pre with
        | nil =>
          exfalso
          simp only [List.nil_append, List.cons_append] at hf
          injection hf with ha hf
          injection hf with hb hf
          injection hf with hc0 hf
          injection hf with hd hf
          injection hf with he hrest
          apply hg
          subst ha; subst hb; subst hc0; subst hd; subst he
          simp [h1, h2, h3, h4]
        | cons x pre' =>
          simp only [List.cons_append] at hf
          injection hf with hax htail
          exact ⟨pre', post, a', b', c', e', h1, h2, h3, h4, htail⟩

/-- C3 (counterexample): `"114-1.csv"` contains the `\d{3}-\d` pattern,
yet with an always-succeeding parser the loader ingests nothing from it
(the `.xlsx` suffix test of line 15 rejects it first). -/
theorem csv_pattern_not_ingested :
    containsYTPattern ("114-1.csv".toList) ∧
    (load_and_combine_data ["114-1.csv".toList]
      (fun _ => some [baseRec])).1 = none := by
  constructor
  · exact ⟨[], ".csv".toList, '1', '1', '4', '1',
      by decide, by decide, by decide, by decide, by decide⟩
  · decide

/-- C3 (amended): a directory entry contributes rows exactly when its
name ends in `.xlsx` and contains the `\d{3}-\d` pattern (and parses);
the regex search succeeds exactly on pattern-containing names; ingested
rows are tagged with the year and term capture groups. -/
theorem load_ingests_xlsx_pattern_files :
    (∀ files parse, catalogRows (load_and_combine_data files parse) =
      files.flatMap (ingestFile parse)) ∧
    (∀ f, (extractYT f).isSome = true ↔ containsYTPattern f) ∧
    (∀ yt r, (tagRow yt r).year = yt.1 ∧ (tagRow yt r).term = yt.2) :=
  ⟨catalogRows_load, extractYT_isSome_iff, fun _ _ => ⟨rfl, rfl⟩⟩

theorem load_ingests_xlsx_pattern_files_witness :
    catalogRows (load_and_combine_data ["114-1.xlsx".toList]
        (fun _ => some [recYear999])) =
      [{ recYear999 with year := "114".toList, term := "1".toList }] := by
  rw [load_ingests_xlsx_pattern_files.1]
  decide

/-- C4: a parse failure on one qualifying file leaves exactly that file
in the warning list; every other file's contribution is unaffected
(the table is the per-file concatenation); and when no file qualifies,
or every qualifying file fails to parse, the loader returns the
explicit no-data value `none` instead of failing. -/
theorem load_parse_failure_contract :
    (∀ files parse, (load_and_combine_data files parse).2 =
      (files.filter endsWithXlsx).filter
        (fun f => (extractYT f).isSome && (parse f).isNone)) ∧
    (∀ files parse, catalogRows (load_and_combine_data files parse) =
      files.flatMap (ingestFile parse)) ∧
    (∀ files parse,
      (∀ f ∈ files, endsWithXlsx f = true →
        (extractYT f).isSome = true → parse f = none) →
      (load_and_combine_data files parse).1 = none) :=
  ⟨load_warnings, catalogRows_load, load_none_of_all_fail⟩

theorem load_parse_failure_contract_witness :
    (load_and_combine_data ["114-1.xlsx".toList]
      (fun _ => (none : Option (List CourseRecord)))).1 = none :=
  load_parse_failure_contract.2.2 ["114-1.xlsx".toList]
    (fun _ => none) (fun _ _ _ _ => rfl)

/-- C10: every row of the unified table originates from some qualifying
file, and its `year`/`term` fields are the capture groups of that
file's name — the loader overwrites whatever the parsed row carried. -/
theorem loaded_rows_year_term_from_filename (files : List Str)
    (parse : Str → Option (List CourseRecord)) (r : CourseRecord)
    (h : r ∈ catalogRows (load_and_combine_data files parse)) :
    ∃ f yt raws raw, f ∈ files ∧ extractYT f = some yt ∧
      parse f = some raws ∧ raw ∈ raws ∧ r = tagRow yt raw ∧
      r.year = yt.1 ∧ r.term = yt.2 := by
  rw [catalogRows_load] at h
  obtain ⟨f, hfmem, hr⟩ := List.mem_flatMap.mp h
  unfold ingestFile at hr
  split at hr
  · next =>
      cases hext : extractYT f with
      | none => rw [hext] at hr; cases hr
      | some yt =>
        rw [hext] at hr
        cases hp : parse f with
        | none => rw [hp] at hr; cases hr
        | some raws =>
          rw [hp] at hr
          obtain ⟨raw, hrawmem, htag⟩ := List.mem_map.mp hr
          exact ⟨f, yt, raws, raw, hfmem, hext, hp, hrawmem, htag.symm,
            by rw [← htag]; rfl, by rw [← htag]; rfl⟩
  · next => cases hr

theorem loaded_rows_year_term_from_filename_witness :
    ∃ f yt raws raw, f ∈ ["114-1.xlsx".toList] ∧ extractYT f = some yt ∧
      (fun (_ : Str) => some [recYear999]) f = some raws ∧ raw ∈ raws ∧
      ({ recYear999 with year := "114".toList, term := "1".toList } :
        CourseRecord) = tagRow yt raw ∧
      ({ recYear999 with year := "114".toList, term := "1".toList } :
        CourseRecord).year = yt.1 ∧
      ({ recYear999 with year := "114".toList, term := "1".toList } :
        CourseRecord).term = yt.2 :=
  loaded_rows_year_term_from_filename ["114-1.xlsx".toList]
    (fun _ => some [recYear999])
    { recYear999 with year := "114".toList, term := "1".toList }
    (by decide)

/-! ## Tag filter facts -/

/-- C1 (counterexample): a row whose raw tag cell is the single tag
`"AB"` is kept when `"A"` is selected — the code tests substring
containment on the raw cell — although its normalized tag set
`{"AB"}` does not meet the selected set `{"A"}`. -/
theorem tag_filter_counterexample :
    tagKeep ["A".toList] recRawAB = true ∧
    ¬ ("A".toList ∈ normTags recRawAB.tags) ∧
    normTags recRawAB.tags = ["AB".toList] :=
  ⟨by decide, by decide, by decide⟩

/-- C1 (amended): the tag filter keeps a row iff some selected tag
occurs as a substring of the row's raw tag cell; on the spec's
examples (tags `"A\nB"` against selections `{B,C}`, `{A}`, `{C}`)
this coincides with normalized-set intersection. -/
theorem tag_filter_substring_semantics :
    (∀ sel r, tagKeep sel r = true ↔ ∃ t ∈ sel, t <:+: r.tags) ∧
    (tagKeep ["B".toList, "C".toList] baseRec = true ∧
      tagKeep ["A".toList] baseRec = true ∧
      tagKeep ["C".toList] baseRec = false) := by
  constructor
  · intro sel r
    simp [tagKeep, List.any_eq_true]
  · exact ⟨by decide, by decide, by decide⟩

theorem tag_filter_substring_semantics_witness :
    tagKeep ["A".toList] baseRec = true :=
  tag_filter_substring_semantics.2.2.1

/-! ## Aggregation facts -/

theorem sum_countBy (key : CourseRecord → Option K) [DecidableEq K]
    (rows : List CourseRecord) :
    ((countBy key rows).map Prod.snd).sum = (rows.filterMap key).length := by
  unfold countBy
  rw [List.map_map]
  simpa using List.sum_map_count_dedup_eq_length (rows.filterMap key)

theorem length_filterMap_ytKey (rows : List CourseRecord) :
    (rows.filterMap ytKey).length = rows.length := by
  induction rows with
  | nil => rfl
  | cons r rs ih => simp [ytKey, List.filterMap_cons, ih]

/-- C2 (amended): for each grouping dimension, the group counts sum to
the number of rows with a non-null value in that dimension; for the
year×term dimension (always assigned by the loader) this is the full
size of the deduplicated input, while null colleges/departments drop
out of their groupings. -/
theorem countBy_counts_sum_nonnull :
    (∀ rows, ((countBy ytKey rows).map Prod.snd).sum = rows.length) ∧
    (∀ rows, ((countBy collegeKey rows).map Prod.snd).sum =
      (rows.filterMap collegeKey).length) ∧
    (∀ rows, ((countBy deptKey rows).map Prod.snd).sum =
      (rows.filterMap deptKey).length) := by
  refine ⟨fun rows => ?_, fun rows => sum_countBy _ _,
    fun rows => sum_countBy _ _⟩
  rw [sum_countBy, length_filterMap_ytKey]

theorem countBy_counts_sum_nonnull_witness :
    ((countBy ytKey [baseRec]).map Prod.snd).sum =
      ([baseRec] : List CourseRecord).length :=
  countBy_counts_sum_nonnull.1 [baseRec]

/-- C2 (counterexample): a deduplicated single-row input whose college
cell is null yields an empty college grouping — the counts sum to `0`,
not to the input size `1` (pandas `groupby` drops null keys). -/
theorem countBy_null_college_counterexample :
    dedupe [recNullCollege] = [recNullCollege] ∧
    ((countBy collegeKey [recNullCollege]).map Prod.snd).sum = 0 ∧
    ([recNullCollege] : List CourseRecord).length = 1 :=
  ⟨by decide, by decide, rfl⟩

/-- C9: the Top-N department view is sorted descending by count, is a
truncation of a descending sort of the full department grouping, and
has `min N (number of groups)` rows — so with 20 department groups,
Top 15 returns exactly 15 rows. -/
theorem topDepts_sorted_truncation (rows : List CourseRecord) :
    List.Sorted cntGE (topDepts 15 rows) ∧
    (sortDescByCount (countBy deptKey rows)).Perm (countBy deptKey rows) ∧
    (topDepts 15 rows).length = min 15 (countBy deptKey rows).length := by
  refine ⟨?_, List.perm_insertionSort cntGE _, ?_⟩
  · exact (List.sorted_insertionSort cntGE _).sublist (List.take_sublist _ _)
  · unfold topDepts sortDescByCount
    rw [List.length_take,
      (List.perm_insertionSort cntGE (countBy deptKey rows)).length_eq]

theorem topDepts_sorted_truncation_witness :
    (topDepts 15 [baseRec]).length =
      min 15 (countBy deptKey [baseRec]).length :=
  (topDepts_sorted_truncation [baseRec]).2.2

/-! ## Keyword filter facts -/

theorem matchPre_lit (kw : Str) (s : Str) :
    matchPre (kw.map (fun c => Tok.lit c.toLower)) s =
      (lowerL kw).isPrefixOf (lowerL s) := by
  induction kw generalizing s with
  | nil => simp [matchPre, lowerL, List.isPrefixOf]
  | cons c cs ih =>
    cases s with
    | nil => simp [matchPre, lowerL, List.isPrefixOf]
    | cons d ds => simp [matchPre, tokMatch, lowerL, List.isPrefixOf, ih]

theorem patSearch_lit (kw : Str) (s : Str) :
    patSearch (kw.map (fun c => Tok.lit c.toLower)) s = true ↔
      lowerL kw <:+: lowerL s := by
  induction s with
  | nil =>
    simp [patSearch, matchPre_lit, List.isPrefixOf_iff_prefix, lowerL]
  | cons d ds ih =>
    simp only [patSearch, Bool.or_eq_true, matchPre_lit,
      List.isPrefixOf_iff_prefix, ih, lowerL, List.map_cons]
    rw [ List.infix_cons_iff]

theorem compilePat_noMeta {kw : Str}
    (h : kw.all (fun c => !(isRegexMeta c)) = true) :
    compilePat kw = kw.map (fun c => Tok.lit c.toLower) := by
  unfold compilePat
  apply List.map_congr_left
  intro c hc
  have hcm := List.all_eq_true.mp h c hc
  by_cases hdot : c = '.'
  · subst hdot
    simp [isRegexMeta] at hcm
  · simp [beq_eq_false_iff_ne.mpr hdot]

/-- C8 (amended): for a keyword free of regex metacharacters the filter
keeps exactly the rows whose course name contains the keyword as a
case-insensitive substring, and a null course name never matches; in
general the keyword is interpreted as a regular expression
(pandas `str.contains` default `regex=True`). -/
theorem keyword_literal_substring (kw : Str)
    (h : kw.all (fun c => !(isRegexMeta c)) = true) :
    (∀ r n, r.courseName = some n →
      (keywordKeep kw r = true ↔ lowerL kw <:+: lowerL n)) ∧
    (∀ r, r.courseName = none → keywordKeep kw r = false) := by
  constructor
  · intro r n hn
    simp [keywordKeep, hn, compilePat_noMeta h, patSearch_lit]
  · intro r hn
    simp [keywordKeep, hn]

theorem keyword_literal_substring_witness :
    keywordKeep ("program".toList) baseRec = true ∧
    baseRec.courseName = some ("Programming I".toList) := by
  constructor
  · exact ((keyword_literal_substring ("program".toList) (by decide)).1
      baseRec ("Programming I".toList) rfl).mpr (by decide)
  · rfl

/-- C8 (counterexample): the keyword `"A."` — a regex, not a literal —
keeps a row named `"AB"`, although `"a."` is not a case-insensitive
substring of `"ab"`. -/
theorem keyword_regex_counterexample :
    keywordKeep ("A.".toList) recNameAB = true ∧
    ¬ (lowerL ("A.".toList) <:+: lowerL ("AB".toList)) :=
  ⟨by decide, by decide⟩
